import Mathlib

/-
Verification of the Game of Life step contract (src/contracts/game-of-life/src/lib.rs).

The board is a byte string (modelled as a list of byte values, each a Nat);
rows are separated by the newline byte 10; the space byte 32 is a dead cell;
any other byte is a live cell whose type is the byte value.  The contract
copies the board into a fixed zero-initialised buffer of 100000 bytes,
parses (width, height), builds a flat grid of the non-newline bytes, and
produces the next generation.  A Rust index-out-of-bounds panic is modelled
by Option: a read of the 100000-byte buffer at an index outside the buffer
returns none, and none propagates to the final result.  The Soroban PRNG
gen_range call is modelled by an injected function rng : Nat → Nat, where
rng n stands for the drawn integer in the range 0..n.
-/

def MAX_BOARD_SIZE : Nat := 100000

def spaceByte : Nat := 32

def newlineByte : Nat := 10

/-- One step of the dimension-parsing loop of next_generation.  The state
is (width, height, current_width), exactly the three mutable locals of the
Rust loop over the input bytes. -/
def parseStep (s : Nat × Nat × Nat) (b : Nat) : Nat × Nat × Nat :=
  if b = newlineByte then
    (if s.1 = 0 then s.2.2 else s.1, s.2.1 + 1, 0)
  else
    (s.1, s.2.1, s.2.2 + 1)

/-- The parsed (width, height) of a board, including the post-loop fixup for
a last row without a trailing newline. -/
def parseDims (board : List Nat) : Nat × Nat :=
  let s := board.foldl parseStep (0, 0, 0)
  if 0 < s.2.2 then (if s.1 = 0 then s.2.2 else s.1, s.2.1 + 1) else (s.1, s.2.1)

/-- The non-newline bytes of the board in order: the prefix of the flat grid
buffer that the grid-building loop actually writes. -/
def gridCells (board : List Nat) : List Nat :=
  board.filter (fun b => b != newlineByte)

/-- Reading index i of the flat grid buffer.  The buffer is a fixed array of
MAX_BOARD_SIZE zero-initialised bytes whose first (gridCells board).length
entries were overwritten; an access outside the buffer is a Rust panic,
modelled as none. -/
def gridGet (board : List Nat) (i : Nat) : Option Nat :=
  if i < MAX_BOARD_SIZE then some ((gridCells board).getD i 0) else none

/-- The value the flat grid holds at column x of row y (0 beyond the written
prefix, matching the zero-initialised buffer). -/
def cellValue (board : List Nat) (w x y : Nat) : Nat :=
  (gridCells board).getD (y * w + x) 0

/-- The 8 Moore offsets (dx, dy) in the scan order of get_neighbor_info:
dy outer and dx inner, both ascending from -1 to 1, skipping (0, 0). -/
def neighborOffsets : List (Int × Int) :=
  [(-1, -1), (0, -1), (1, -1), (-1, 0), (1, 0), (-1, 1), (0, 1), (1, 1)]

/-- The neighbor loop of get_neighbor_info over a list of remaining offsets,
carrying the count and types accumulators. -/
def neighborScan (grid : Nat → Option Nat) (x y : Int) (w h : Nat) :
    List (Int × Int) → Nat → List Nat → Option (Nat × List Nat)
  | [], count, ts => some (count, ts)
  | d :: ds, count, ts =>
    if 0 ≤ x + d.1 ∧ x + d.1 < (w : Int) ∧ 0 ≤ y + d.2 ∧ y + d.2 < (h : Int) then
      match grid ((y + d.2).toNat * w + (x + d.1).toNat) with
      | none => none
      | some cell =>
        if cell = spaceByte then neighborScan grid x y w h ds count ts
        else neighborScan grid x y w h ds (count + 1) (ts ++ [cell])
    else neighborScan grid x y w h ds count ts

/-- get_neighbor_info: count and ordered list of the live in-bounds Moore
neighbors of (x, y). -/
def get_neighbor_info (grid : Nat → Option Nat) (x y : Int) (w h : Nat) :
    Option (Nat × List Nat) :=
  neighborScan grid x y w h neighborOffsets 0 []

/-- One step of the occurrence-counting loop of get_dominant_type: bump the
count of t if already present, otherwise append (t, 1). -/
def tallyInsert (counts : List (Nat × Nat)) (t : Nat) : List (Nat × Nat) :=
  match counts with
  | [] => [(t, 1)]
  | p :: rest => if p.1 = t then (p.1, p.2 + 1) :: rest else p :: tallyInsert rest t

/-- The per-type occurrence counts of a type list, keys in first-seen order. -/
def tally (types : List Nat) : List (Nat × Nat) :=
  types.foldl tallyInsert []

/-- The count recorded for key t in a tally (0 if absent). -/
def countOf (counts : List (Nat × Nat)) (t : Nat) : Nat :=
  match counts with
  | [] => 0
  | p :: rest => if p.1 = t then p.2 else countOf rest t

/-- One step of the maximum-count loop of get_dominant_type. -/
def maxStep (m : Nat) (p : Nat × Nat) : Nat :=
  if m < p.2 then p.2 else m

/-- The maximum-count loop of get_dominant_type. -/
def maxCountOf (counts : List (Nat × Nat)) : Nat :=
  counts.foldl maxStep 0

/-- The winners list of get_dominant_type: keys whose count reaches the
maximum, in tally order. -/
def winnersOf (types : List Nat) : List Nat :=
  ((tally types).filter (fun p => p.2 = maxCountOf (tally types))).map Prod.fst

/-- get_dominant_type: the byte a newly born cell inherits, given the list
of its live neighbor types.  rng models env.prng().gen_range: rng n is the
integer drawn from 0..n. -/
def get_dominant_type (rng : Nat → Nat) (types : List Nat) : Nat :=
  if types.length = 0 then 79
  else if types.length = 1 then types.headD 0
  else if (winnersOf types).length = 1 then (winnersOf types).headD 0
  else (winnersOf types).getD (rng (winnersOf types).length) 0

/-- The body of the per-cell loop of next_generation: read the cell, get the
neighbor statistics, apply the Life rule, and emit the next byte.  none is a
panic of one of the two grid reads. -/
def cellNext (rng : Nat → Nat) (grid : Nat → Option Nat) (w h x y : Nat) :
    Option Nat :=
  match grid (y * w + x) with
  | none => none
  | some currentChar =>
    match get_neighbor_info grid (x : Int) (y : Int) w h with
    | none => none
    | some nt =>
      let cellAlive := currentChar ≠ spaceByte
      let nextAlive := if cellAlive then nt.1 = 2 ∨ nt.1 = 3 else nt.1 = 3
      if nextAlive then
        if cellAlive then some currentChar
        else some (get_dominant_type rng nt.2)
      else some spaceByte

/-- List.mapM specialised to Option, written as plain recursion. -/
def mapOpt {α β : Type} (f : α → Option β) : List α → Option (List β)
  | [] => some []
  | a :: l =>
    match f a with
    | none => none
    | some b =>
      match mapOpt f l with
      | none => none
      | some bs => some (b :: bs)

/-- The nested row/column loops of next_generation, producing the list of
output rows (cells only, no newlines). -/
def computeRows (rng : Nat → Nat) (board : List Nat) (w h : Nat) :
    Option (List (List Nat)) :=
  mapOpt (fun y => mapOpt (fun x => cellNext rng (gridGet board) w h x y)
    (List.range w)) (List.range h)

/-- Joining the output rows with one newline byte before every row but the
first, exactly as the y-loop of next_generation pushes bytes. -/
def joinRows : List (List Nat) → List Nat
  | [] => []
  | [r] => r
  | r :: rs => r ++ newlineByte :: joinRows rs

/-- next_generation.  Degenerate inputs (empty, oversized, zero parsed width
or height) are returned unchanged.  The final if models the copy of the
result bytes into the fixed 100000-byte output buffer, which panics when the
output does not fit. -/
def next_generation (rng : Nat → Nat) (board : List Nat) : Option (List Nat) :=
  if board.length = 0 ∨ MAX_BOARD_SIZE < board.length then some board
  else if (parseDims board).1 = 0 ∨ (parseDims board).2 = 0 then some board
  else
    match computeRows rng board (parseDims board).1 (parseDims board).2 with
    | none => none
    | some rows =>
      if MAX_BOARD_SIZE < (joinRows rows).length then none
      else some (joinRows rows)

/-! Specification-side definitions, written from the wording of the spec and
of the claims, to be compared with the code-side definitions above. -/

/-- Modelled from the spec: the length of the run of non-newline bytes
before the first newline byte (the entire input when no newline exists). -/
def specFirstRowWidth (board : List Nat) : Nat :=
  (board.takeWhile (fun b => b != newlineByte)).length

/-- Modelled from the spec (amended): the length of the first maximal
nonempty run of non-newline bytes, 0 when every byte is a newline. -/
def amendedWidth : List Nat → Nat
  | [] => 0
  | b :: l =>
    if b = newlineByte then amendedWidth l
    else ((b :: l).takeWhile (fun c => c != newlineByte)).length

/-- Modelled from the spec: trailing non-newline bytes exist after the last
newline, i.e. the board is nonempty and does not end with a newline. -/
def hasTrailingRun (board : List Nat) : Bool :=
  match board.getLast? with
  | some b => b != newlineByte
  | none => false

/-- Modelled from the spec: the number of newline-delimited rows (one per
newline byte), plus one more when trailing non-newline bytes exist. -/
def specHeight (board : List Nat) : Nat :=
  board.count newlineByte + (if hasTrailingRun board then 1 else 0)

/-- Whether the Moore offset d of cell (x, y) lands inside
[0, w) x [0, h). -/
def offsetInBounds (w h x y : Nat) (d : Int × Int) : Bool :=
  decide (0 ≤ (x : Int) + d.1) && decide ((x : Int) + d.1 < (w : Int)) &&
  decide (0 ≤ (y : Int) + d.2) && decide ((y : Int) + d.2 < (h : Int))

/-- The flat-grid index of the Moore offset d of cell (x, y). -/
def offsetIndex (w x y : Nat) (d : Int × Int) : Nat :=
  ((y : Int) + d.2).toNat * w + ((x : Int) + d.1).toNat

/-- Whether the Moore offset d of cell (x, y) is an in-bounds live
neighbor. -/
def isLiveNeighbor (board : List Nat) (w h x y : Nat) (d : Int × Int) : Bool :=
  offsetInBounds w h x y d &&
    ((gridCells board).getD (offsetIndex w x y d) 0 != spaceByte)

/-- The number of live in-bounds Moore neighbors of cell (x, y). -/
def specLiveNeighbors (board : List Nat) (w h x y : Nat) : Nat :=
  (neighborOffsets.filter (isLiveNeighbor board w h x y)).length

/-- The byte values of the live in-bounds Moore neighbors of (x, y), in the
fixed scan order of neighborOffsets. -/
def specNeighborTypes (board : List Nat) (w h x y : Nat) : List Nat :=
  (neighborOffsets.filter (isLiveNeighbor board w h x y)).map
    (fun d => (gridCells board).getD (offsetIndex w x y d) 0)

/-- Modelled from the spec: the maximum occurrence count reached by any
byte value of the list. -/
def specMaxOcc (types : List Nat) : Nat :=
  (types.map (fun t => types.count t)).foldl max 0

/-- Modelled from the spec: the number of distinct byte values that achieve
the maximum occurrence count of the list. -/
def distinctMaxTypes (types : List Nat) : Nat :=
  (types.dedup.filter (fun t => types.count t = specMaxOcc types)).length

/-- No dead cell of the board with exactly 3 live neighbors has two or more
neighbor types tied for the maximum occurrence count. -/
def noBirthTie (board : List Nat) (w h : Nat) : Prop :=
  ∀ x, x < w → ∀ y, y < h →
    cellValue board w x y = spaceByte →
    specLiveNeighbors board w h x y = 3 →
    distinctMaxTypes (specNeighborTypes board w h x y) ≤ 1

/-! Proof-side helper functions characterising the parse fold. -/

/-- The current_width local after running the parse loop over l starting
from current_width = cw. -/
def cwAux (cw : Nat) : List Nat → Nat
  | [] => cw
  | b :: l => if b = newlineByte then cwAux 0 l else cwAux (cw + 1) l

/-- The width local after running the parse loop over l starting from
width = 0 and current_width = cw. -/
def wAux (cw : Nat) : List Nat → Nat
  | [] => 0
  | b :: l =>
    if b = newlineByte then (if cw = 0 then wAux 0 l else cw)
    else wAux (cw + 1) l

/-! Concrete boards and random sources used by witnesses and
counterexamples. -/

/-- A random source that always draws 0. -/
def rng0 : Nat → Nat := fun _ => 0

/-- A second, different random source. -/
def rng1 : Nat → Nat := fun n => n + 1

/-- The 3x3 all-live board OOO / OOO / OOO of the overcrowding test. -/
def board9 : List Nat := [79, 79, 79, 10, 79, 79, 79, 10, 79, 79, 79]

/-- The expected next generation of board9: O O /     / O O. -/
def out9 : List Nat := [79, 32, 79, 10, 32, 32, 32, 10, 79, 32, 79]

/-- The mixed-type still life of the spec: four rows announcing XO / OX
inside a dead border. -/
def mixedBoard : List Nat :=
  [32, 32, 32, 32, 10, 32, 88, 79, 32, 10, 32, 79, 88, 32, 10, 32, 32, 32, 32]

/-- A 5x3 all-dead board. -/
def allSpaceBoard : List Nat :=
  [32, 32, 32, 32, 32, 10, 32, 32, 32, 32, 32, 10, 32, 32, 32, 32, 32]

/-- 317 live bytes followed by 317 newlines: 634 input bytes parsing to a
317 x 317 grid of 100489 cells, larger than the 100000-byte buffer. -/
def bigBoard : List Nat := List.replicate 317 88 ++ List.replicate 317 10

/-- The board AB / A whose second row is shorter than the first: the flat
grid is [65, 66, 32, 65, 0, 0] with two zero-padded cells. -/
def demoBoard : List Nat := [65, 66, 32, 10, 65]

/-- The next generation of demoBoard: the zero cell (2, 1) survives as 0 and
cell (2, 0) is born with inherited type 0. -/
def demoOut : List Nat := [65, 32, 0, 10, 65, 32, 0]

/-- The board whose first newline-delimited row is empty: a newline followed
by AB.  The run before the first newline has length 0, yet the parser keeps
scanning and takes the width from the first nonempty row. -/
def cexBoard : List Nat := [10, 65, 66]

/-- The 5x5 single-type blinker board. -/
def blinkerBoard : List Nat :=
  [32, 32, 32, 32, 32, 10, 32, 32, 32, 32, 32, 10, 32, 88, 88, 88, 32, 10,
   32, 32, 32, 32, 32, 10, 32, 32, 32, 32, 32]

/-! Helper lemmas about mapOpt. -/

theorem mapOpt_eq_none_of_mem {α β : Type} {f : α → Option β} {l : List α}
    {a : α} (ha : a ∈ l) (hfa : f a = none) : mapOpt f l = none := by
  induction l with
  | nil => cases ha
  | cons b t ih =>
    rcases List.mem_cons.mp ha with h | h
    · subst h
      simp [mapOpt, hfa]
    · unfold mapOpt
      cases hfb : f b with
      | none => rfl
      | some v => rw [ih h]

theorem mapOpt_some_length {α β : Type} {f : α → Option β} {l : List α}
    {m : List β} (h : mapOpt f l = some m) : m.length = l.length := by
  induction l generalizing m with
  | nil =>
    simp [mapOpt] at h
    subst h; rfl
  | cons a t ih =>
    unfold mapOpt at h
    cases hfa : f a with
    | none => rw [hfa] at h; cases h
    | some b =>
      rw [hfa] at h
      cases hm : mapOpt f t with
      | none => rw [hm] at h; cases h
      | some bs =>
        rw [hm] at h
        cases h
        simp [ih hm]

theorem mapOpt_some_getD {α β : Type} {f : α → Option β} {l : List α}
    {m : List β} (h : mapOpt f l = some m) (i : Nat) (hi : i < l.length)
    (da : α) (db : β) : f (l.getD i da) = some (m.getD i db) := by
  induction l generalizing m i with
  | nil => cases hi
  | cons a t ih =>
    unfold mapOpt at h
    cases hfa : f a with
    | none => rw [hfa] at h; cases h
    | some b =>
      rw [hfa] at h
      cases hm : mapOpt f t with
      | none => rw [hm] at h; cases h
      | some bs =>
        rw [hm] at h
        cases h
        cases i with
        | zero => simpa using hfa
        | succ j =>
          have hj : j < t.length := Nat.lt_of_succ_lt_succ hi
          simpa using ih hm j hj

theorem mapOpt_some_mem {α β : Type} {f : α → Option β} {l : List α}
    {m : List β} (h : mapOpt f l = some m) {b : β} (hb : b ∈ m) :
    ∃ a ∈ l, f a = some b := by
  induction l generalizing m with
  | nil =>
    simp [mapOpt] at h
    subst h; cases hb
  | cons a t ih =>
    unfold mapOpt at h
    cases hfa : f a with
    | none => rw [hfa] at h; cases h
    | some v =>
      rw [hfa] at h
      cases hm : mapOpt f t with
      | none => rw [hm] at h; cases h
      | some bs =>
        rw [hm] at h
        cases h
        rcases List.mem_cons.mp hb with hb | hb
        · exact ⟨a, List.mem_cons_self a t, by rw [hfa, hb]⟩
        · rcases ih hm hb with ⟨a2, ha2, hfa2⟩
          exact ⟨a2, List.mem_cons_of_mem a ha2, hfa2⟩

theorem mapOpt_isSome {α β : Type} {f : α → Option β} {l : List α}
    (h : ∀ a ∈ l, (f a).isSome) : (mapOpt f l).isSome := by
  induction l with
  | nil => simp [mapOpt]
  | cons a t ih =>
    unfold mapOpt
    cases hfa : f a with
    | none =>
      have := h a (List.mem_cons_self a t)
      rw [hfa] at this
      cases this
    | some b =>
      have ht : (mapOpt f t).isSome := ih (fun x hx => h x (List.mem_cons_of_mem a hx))
      cases hm : mapOpt f t with
      | none => rw [hm] at ht; cases ht
      | some bs => simp

theorem mapOpt_congr {α β : Type} {f g : α → Option β} {l : List α}
    (h : ∀ a ∈ l, f a = g a) : mapOpt f l = mapOpt g l := by
  induction l with
  | nil => rfl
  | cons a t ih =>
    unfold mapOpt
    rw [h a (List.mem_cons_self a t), ih (fun x hx => h x (List.mem_cons_of_mem a hx))]

/-! Helper lemmas about list access and the grid buffer. -/

theorem getD_mem_of_lt {α : Type} {l : List α} {i : Nat} (h : i < l.length)
    (d : α) : l.getD i d ∈ l := by
  rw [List.getD_eq_getElem l d h]
  exact List.getElem_mem h

theorem getD_mem_or_default {α : Type} (l : List α) (i : Nat) (d : α) :
    l.getD i d ∈ l ∨ l.getD i d = d := by
  rcases Nat.lt_or_ge i l.length with h | h
  · exact Or.inl (getD_mem_of_lt h d)
  · exact Or.inr (List.getD_eq_default l d h)

theorem gridGet_some_iff {board : List Nat} {i : Nat} {v : Nat} :
    gridGet board i = some v ↔ i < MAX_BOARD_SIZE ∧ v = (gridCells board).getD i 0 := by
  unfold gridGet
  by_cases h : i < MAX_BOARD_SIZE
  · simp [h, eq_comm]
  · simp [h]

theorem gridGet_isSome {board : List Nat} {i : Nat} (h : i < MAX_BOARD_SIZE) :
    (gridGet board i).isSome := by
  simp [gridGet, h]

theorem gridCells_getD_ne_newline (board : List Nat) (i : Nat) :
    (gridCells board).getD i 0 ≠ newlineByte := by
  rcases getD_mem_or_default (gridCells board) i 0 with h | h
  · have := List.of_mem_filter h
    simpa [newlineByte] using this
  · rw [h]
    simp [newlineByte]

theorem gridCells_getD_pad (board : List Nat) (i : Nat)
    (h : (gridCells board).length ≤ i) : (gridCells board).getD i 0 = 0 :=
  List.getD_eq_default _ _ h

/-! Helper lemmas about joinRows. -/

theorem joinRows_length {w : Nat} : ∀ {rows : List (List Nat)},
    (∀ r ∈ rows, r.length = w) → (joinRows rows).length = rows.length * w + (rows.length - 1) := by
  intro rows
  induction rows with
  | nil => intro _; simp [joinRows]
  | cons r rs ih =>
    intro h
    cases rs with
    | nil =>
      simp [joinRows, h r (List.mem_cons_self r [])]
    | cons r2 rs2 =>
      have hr : r.length = w := h r (List.mem_cons_self _ _)
      have hrest := ih (fun x hx => h x (List.mem_cons_of_mem r hx))
      show (r ++ newlineByte :: joinRows (r2 :: rs2)).length = _
      rw [List.length_append, List.length_cons, hrest, hr]
      have : (r2 :: rs2).length = rs2.length + 1 := by simp
      rw [this]
      have hlen : ((r :: r2 :: rs2) : List (List Nat)).length = rs2.length + 2 := by simp
      rw [hlen]
      have h1 : (rs2.length + 1) * w = rs2.length * w + w := by ring
      have h2 : (rs2.length + 2) * w = rs2.length * w + 2 * w := by ring
      rw [h1, h2]
      omega

theorem joinRows_getD {w : Nat} : ∀ {rows : List (List Nat)} {x y : Nat},
    (∀ r ∈ rows, r.length = w) → y < rows.length → x < w →
    (joinRows rows).getD (y * (w + 1) + x) 0 = (rows.getD y []).getD x 0 := by
  intro rows
  induction rows with
  | nil => intro x y _ hy; cases hy
  | cons r rs ih =>
    intro x y h hy hx
    have hr : r.length = w := h r (List.mem_cons_self _ _)
    cases y with
    | zero =>
      simp only [Nat.zero_mul, Nat.zero_add, List.getD_cons_zero]
      cases rs with
      | nil => simp [joinRows]
      | cons r2 rs2 =>
        show (r ++ newlineByte :: joinRows (r2 :: rs2)).getD x 0 = r.getD x 0
        exact List.getD_append _ _ _ _ (by omega)
    | succ y2 =>
      have hy2 : y2 < rs.length := by
        simp at hy
        omega
      have hrs : rs ≠ [] := by
        intro hcon
        rw [hcon] at hy2
        cases hy2
      have hjoin : joinRows (r :: rs) = r ++ newlineByte :: joinRows rs := by
        cases rs with
        | nil => exact absurd rfl hrs
        | cons a b => rfl
      rw [hjoin]
      have hidx : (y2 + 1) * (w + 1) + x = r.length + (y2 * (w + 1) + x + 1) := by
        rw [hr]
        ring
      rw [hidx, List.getD_append_right _ _ _ _ (by omega)]
      have hsub : r.length + (y2 * (w + 1) + x + 1) - r.length = y2 * (w + 1) + x + 1 := by
        omega
      rw [hsub, List.getD_cons_succ]
      have hrest := ih (fun a ha => h a (List.mem_cons_of_mem r ha)) hy2 hx
      rw [hrest]
      simp

/-! Helper lemmas about the occurrence tally of get_dominant_type. -/

theorem countOf_tallyInsert_self (acc : List (Nat × Nat)) (t : Nat) :
    countOf (tallyInsert acc t) t = countOf acc t + 1 := by
  induction acc with
  | nil => simp [tallyInsert, countOf]
  | cons p rest ih =>
    by_cases hp : p.1 = t
    · simp [tallyInsert, countOf, hp]
    · simp [tallyInsert, countOf, hp, ih]

theorem countOf_tallyInsert_other (acc : List (Nat × Nat)) (t u : Nat)
    (h : u ≠ t) : countOf (tallyInsert acc t) u = countOf acc u := by
  have hts : t ≠ u := Ne.symm h
  induction acc with
  | nil => simp [tallyInsert, countOf, hts]
  | cons p rest ih =>
    by_cases hp : p.1 = t
    · simp [tallyInsert, countOf, hp, hts]
    · by_cases hpu : p.1 = u
      · simp [tallyInsert, countOf, hp, hpu, h]
      · simp [tallyInsert, countOf, hp, hpu, ih]

theorem mem_keys_tallyInsert (acc : List (Nat × Nat)) (t u : Nat) :
    u ∈ (tallyInsert acc t).map Prod.fst ↔ u ∈ acc.map Prod.fst ∨ u = t := by
  induction acc with
  | nil => simp [tallyInsert]
  | cons p rest ih =>
    by_cases hp : p.1 = t
    · simp only [tallyInsert, hp, eq_self_iff_true, if_true, List.map_cons,
        List.mem_cons]
      tauto
    · simp only [tallyInsert, if_neg hp, List.map_cons, List.mem_cons, ih]
      tauto

theorem keys_nodup_tallyInsert (acc : List (Nat × Nat)) (t : Nat)
    (h : (acc.map Prod.fst).Nodup) : ((tallyInsert acc t).map Prod.fst).Nodup := by
  induction acc with
  | nil => simp [tallyInsert]
  | cons p rest ih =>
    rw [List.map_cons, List.nodup_cons] at h
    by_cases hp : p.1 = t
    · simp only [tallyInsert, if_pos hp, List.map_cons, List.nodup_cons]
      exact h
    · simp only [tallyInsert, if_neg hp, List.map_cons, List.nodup_cons]
      refine ⟨?_, ih h.2⟩
      rw [mem_keys_tallyInsert]
      rintro (hc | hc)
      · exact h.1 hc
      · exact hp hc

theorem countOf_foldl (ts : List Nat) : ∀ (acc : List (Nat × Nat)) (t : Nat),
    countOf (ts.foldl tallyInsert acc) t = countOf acc t + ts.count t := by
  induction ts with
  | nil => intro acc t; simp
  | cons s rest ih =>
    intro acc t
    rw [List.foldl_cons, ih]
    by_cases hst : s = t
    · subst hst
      rw [countOf_tallyInsert_self]
      simp [List.count_cons]
      omega
    · rw [countOf_tallyInsert_other acc s t (fun hc => hst hc.symm)]
      simp [List.count_cons, hst]

theorem mem_keys_foldl (ts : List Nat) : ∀ (acc : List (Nat × Nat)) (u : Nat),
    u ∈ (ts.foldl tallyInsert acc).map Prod.fst ↔ u ∈ acc.map Prod.fst ∨ u ∈ ts := by
  induction ts with
  | nil => intro acc u; simp
  | cons s rest ih =>
    intro acc u
    rw [List.foldl_cons, ih, mem_keys_tallyInsert]
    simp only [List.mem_cons]
    tauto

theorem keys_nodup_foldl (ts : List Nat) : ∀ (acc : List (Nat × Nat)),
    (acc.map Prod.fst).Nodup → ((ts.foldl tallyInsert acc).map Prod.fst).Nodup := by
  induction ts with
  | nil => intro acc h; simpa using h
  | cons s rest ih =>
    intro acc h
    exact ih _ (keys_nodup_tallyInsert acc s h)

theorem countOf_mem_keys : ∀ (l : List (Nat × Nat)) {u : Nat},
    u ∈ l.map Prod.fst → (u, countOf l u) ∈ l := by
  intro l
  induction l with
  | nil => intro u hu; simp at hu
  | cons p rest ih =>
    intro u hu
    by_cases hp : p.1 = u
    · have : countOf (p :: rest) u = p.2 := by simp [countOf, hp]
      rw [this]
      have : (u, p.2) = p := by rw [← hp]
      rw [this]
      exact List.mem_cons_self p rest
    · have hmem : u ∈ rest.map Prod.fst := by
        rcases List.mem_map.mp hu with ⟨q, hq, hq1⟩
        rcases List.mem_cons.mp hq with hq2 | hq2
        · exact absurd (by rw [hq2] at hq1; exact hq1) hp
        · exact List.mem_map.mpr ⟨q, hq2, hq1⟩
      have : countOf (p :: rest) u = countOf rest u := by simp [countOf, hp]
      rw [this]
      exact List.mem_cons_of_mem p (ih hmem)

theorem mem_countOf_eq : ∀ {l : List (Nat × Nat)}, (l.map Prod.fst).Nodup →
    ∀ {p : Nat × Nat}, p ∈ l → countOf l p.1 = p.2 := by
  intro l
  induction l with
  | nil => intro _ p hp; simp at hp
  | cons q rest ih =>
    intro hnd p hp
    rw [List.map_cons, List.nodup_cons] at hnd
    rcases List.mem_cons.mp hp with hp2 | hp2
    · subst hp2
      simp [countOf]
    · by_cases hq : q.1 = p.1
      · exfalso
        apply hnd.1
        rw [hq]
        exact List.mem_map.mpr ⟨p, hp2, rfl⟩
      · have : countOf (q :: rest) p.1 = countOf rest p.1 := by simp [countOf, hq]
        rw [this]
        exact ih hnd.2 hp2

theorem tally_countOf (ts : List Nat) (t : Nat) : countOf (tally ts) t = ts.count t := by
  rw [tally, countOf_foldl]
  simp [countOf]

theorem tally_mem_keys (ts : List Nat) (t : Nat) :
    t ∈ (tally ts).map Prod.fst ↔ t ∈ ts := by
  rw [tally, mem_keys_foldl]
  simp

theorem tally_keys_nodup (ts : List Nat) : ((tally ts).map Prod.fst).Nodup := by
  rw [tally]
  exact keys_nodup_foldl ts [] (by simp)

theorem tally_pair (ts : List Nat) {p : Nat × Nat} (hp : p ∈ tally ts) :
    p.1 ∈ ts ∧ p.2 = ts.count p.1 := by
  constructor
  · rw [← tally_mem_keys ts p.1]
    exact List.mem_map.mpr ⟨p, hp, rfl⟩
  · rw [← mem_countOf_eq (tally_keys_nodup ts) hp, tally_countOf]

theorem tally_complete (ts : List Nat) {t : Nat} (ht : t ∈ ts) :
    (t, ts.count t) ∈ tally ts := by
  have hk : t ∈ (tally ts).map Prod.fst := (tally_mem_keys ts t).mpr ht
  have := countOf_mem_keys (tally ts) hk
  rwa [tally_countOf] at this

/-! Helper lemmas about the two maximum folds. -/

theorem le_foldl_maxStep (l : List (Nat × Nat)) : ∀ i : Nat, i ≤ l.foldl maxStep i := by
  induction l with
  | nil => intro i; exact Nat.le_refl i
  | cons p rest ih =>
    intro i
    refine Nat.le_trans ?_ (ih (maxStep i p))
    unfold maxStep
    by_cases h : i < p.2 <;> simp [h] <;> omega

theorem mem_le_foldl_maxStep (l : List (Nat × Nat)) : ∀ (i : Nat) {p : Nat × Nat},
    p ∈ l → p.2 ≤ l.foldl maxStep i := by
  induction l with
  | nil => intro i p hp; simp at hp
  | cons q rest ih =>
    intro i p hp
    rcases List.mem_cons.mp hp with hp2 | hp2
    · subst hp2
      refine Nat.le_trans ?_ (le_foldl_maxStep rest (maxStep i p))
      unfold maxStep
      by_cases h : i < p.2 <;> simp [h] <;> omega
    · exact ih (maxStep i q) hp2

theorem foldl_maxStep_cases (l : List (Nat × Nat)) : ∀ i : Nat,
    l.foldl maxStep i = i ∨ ∃ p ∈ l, l.foldl maxStep i = p.2 := by
  induction l with
  | nil => intro i; exact Or.inl rfl
  | cons q rest ih =>
    intro i
    rcases ih (maxStep i q) with h | ⟨p, hp, hval⟩
    · rw [List.foldl_cons, h]
      unfold maxStep
      by_cases hc : i < q.2
      · exact Or.inr ⟨q, List.mem_cons_self q rest, by simp [hc]⟩
      · exact Or.inl (by simp [hc])
    · exact Or.inr ⟨p, List.mem_cons_of_mem q hp, by rw [List.foldl_cons, hval]⟩

theorem le_foldl_max (l : List Nat) : ∀ i : Nat, i ≤ l.foldl max i := by
  induction l with
  | nil => intro i; exact Nat.le_refl i
  | cons a rest ih =>
    intro i
    exact Nat.le_trans (Nat.le_max_left i a) (ih (max i a))

theorem mem_le_foldl_max (l : List Nat) : ∀ (i : Nat) {a : Nat},
    a ∈ l → a ≤ l.foldl max i := by
  induction l with
  | nil => intro i a ha; simp at ha
  | cons b rest ih =>
    intro i a ha
    rcases List.mem_cons.mp ha with ha2 | ha2
    · subst ha2
      exact Nat.le_trans (Nat.le_max_right i a) (le_foldl_max rest (max i a))
    · exact ih (max i b) ha2

theorem foldl_max_le (l : List Nat) : ∀ (i b : Nat), i ≤ b → (∀ a ∈ l, a ≤ b) →
    l.foldl max i ≤ b := by
  induction l with
  | nil => intro i b hi _; exact hi
  | cons a rest ih =>
    intro i b hi h
    refine ih (max i a) b ?_ (fun x hx => h x (List.mem_cons_of_mem a hx))
    exact Nat.max_le.mpr ⟨hi, h a (List.mem_cons_self a rest)⟩

theorem foldl_max_cases (l : List Nat) : ∀ i : Nat,
    l.foldl max i = i ∨ ∃ a ∈ l, l.foldl max i = a := by
  induction l with
  | nil => intro i; exact Or.inl rfl
  | cons a rest ih =>
    intro i
    rcases ih (max i a) with h | ⟨b, hb, hval⟩
    · rw [List.foldl_cons, h]
      rcases max_choice i a with hc | hc
      · exact Or.inl hc
      · exact Or.inr ⟨a, List.mem_cons_self a rest, hc⟩
    · exact Or.inr ⟨b, List.mem_cons_of_mem a hb, by rw [List.foldl_cons, hval]⟩

theorem count_le_specMaxOcc {ts : List Nat} {t : Nat} (h : t ∈ ts) :
    ts.count t ≤ specMaxOcc ts := by
  unfold specMaxOcc
  exact mem_le_foldl_max _ 0 (List.mem_map.mpr ⟨t, h, rfl⟩)

theorem specMaxOcc_le {ts : List Nat} {b : Nat} (h : ∀ t ∈ ts, ts.count t ≤ b) :
    specMaxOcc ts ≤ b := by
  unfold specMaxOcc
  refine foldl_max_le _ 0 b (Nat.zero_le b) ?_
  intro a ha
  rcases List.mem_map.mp ha with ⟨t, ht, rfl⟩
  exact h t ht

theorem maxCountOf_tally (ts : List Nat) : maxCountOf (tally ts) = specMaxOcc ts := by
  apply Nat.le_antisymm
  · unfold maxCountOf
    rcases foldl_maxStep_cases (tally ts) 0 with h | ⟨p, hp, hval⟩
    · rw [h]; exact Nat.zero_le _
    · rw [hval]
      rcases tally_pair ts hp with ⟨hmem, hcount⟩
      rw [hcount]
      exact count_le_specMaxOcc hmem
  · unfold specMaxOcc
    refine foldl_max_le _ 0 _ (Nat.zero_le _) ?_
    intro a ha
    rcases List.mem_map.mp ha with ⟨t, ht, rfl⟩
    exact mem_le_foldl_maxStep (tally ts) 0 (tally_complete ts ht)

/-! Helper lemmas about the winners list. -/

theorem winnersOf_mem {ts : List Nat} {q : Nat} (h : q ∈ winnersOf ts) :
    q ∈ ts ∧ ts.count q = specMaxOcc ts := by
  unfold winnersOf at h
  rcases List.mem_map.mp h with ⟨p, hp, rfl⟩
  rcases List.mem_filter.mp hp with ⟨hmem, hcond⟩
  rcases tally_pair ts hmem with ⟨h1, h2⟩
  have hcond2 : p.2 = maxCountOf (tally ts) := by simpa using hcond
  exact ⟨h1, by rw [← h2, hcond2, maxCountOf_tally]⟩

theorem mem_winnersOf {ts : List Nat} {q : Nat} (h1 : q ∈ ts)
    (h2 : ts.count q = specMaxOcc ts) : q ∈ winnersOf ts := by
  unfold winnersOf
  refine List.mem_map.mpr ⟨(q, ts.count q), ?_, rfl⟩
  refine List.mem_filter.mpr ⟨tally_complete ts h1, ?_⟩
  simp only [decide_eq_true_eq]
  rw [h2, maxCountOf_tally]

theorem winnersOf_nodup (ts : List Nat) : (winnersOf ts).Nodup := by
  unfold winnersOf
  have hsub : List.Sublist
      (((tally ts).filter (fun p => p.2 = maxCountOf (tally ts))).map Prod.fst)
      ((tally ts).map Prod.fst) :=
    List.Sublist.map Prod.fst (List.filter_sublist (tally ts))
  exact (tally_keys_nodup ts).sublist hsub

theorem winnersOf_length (ts : List Nat) :
    (winnersOf ts).length = distinctMaxTypes ts := by
  unfold distinctMaxTypes
  refine List.Perm.length_eq ?_
  refine (List.perm_ext_iff_of_nodup (winnersOf_nodup ts) ?_).mpr ?_
  · exact (ts.nodup_dedup).filter _
  · intro a
    rw [List.mem_filter, List.mem_dedup]
    constructor
    · intro h
      rcases winnersOf_mem h with ⟨h1, h2⟩
      exact ⟨h1, by simpa using h2⟩
    · rintro ⟨h1, h2⟩
      exact mem_winnersOf h1 (by simpa using h2)

theorem winnersOf_ne_nil {ts : List Nat} (h : ts ≠ []) : winnersOf ts ≠ [] := by
  rcases List.exists_mem_of_ne_nil ts h with ⟨t0, ht0⟩
  have hpos : 0 < ts.count t0 := List.count_pos_iff.mpr ht0
  have hspec : 0 < specMaxOcc ts := Nat.lt_of_lt_of_le hpos (count_le_specMaxOcc ht0)
  unfold specMaxOcc at hspec
  rcases foldl_max_cases (ts.map (fun t => ts.count t)) 0 with hc | ⟨a, ha, hval⟩
  · rw [hc] at hspec
    cases hspec
  · rcases List.mem_map.mp ha with ⟨t, ht, rfl⟩
    have : t ∈ winnersOf ts := by
      refine mem_winnersOf ht ?_
      unfold specMaxOcc
      rw [hval]
    intro hcon
    rw [hcon] at this
    cases this

/-! Helper lemmas about get_dominant_type. -/

theorem headD_mem {l : List Nat} (h : l ≠ []) (d : Nat) : l.headD d ∈ l := by
  cases l with
  | nil => exact absurd rfl h
  | cons a t => simp

theorem gdt_cases (rng : Nat → Nat) (types : List Nat) :
    get_dominant_type rng types = 79 ∨ get_dominant_type rng types = 0 ∨
    get_dominant_type rng types ∈ types := by
  unfold get_dominant_type
  by_cases h0 : types.length = 0
  · simp [h0]
  · rw [if_neg h0]
    by_cases h1 : types.length = 1
    · rw [if_pos h1]
      have hne : types ≠ [] := by
        intro hc
        rw [hc] at h1
        cases h1
      exact Or.inr (Or.inr (headD_mem hne 0))
    · rw [if_neg h1]
      by_cases hw : (winnersOf types).length = 1
      · rw [if_pos hw]
        have hne : winnersOf types ≠ [] := by
          intro hc
          rw [hc] at hw
          cases hw
        exact Or.inr (Or.inr (winnersOf_mem (headD_mem hne 0)).1)
      · rw [if_neg hw]
        rcases getD_mem_or_default (winnersOf types) (rng (winnersOf types).length) 0
          with hm | hd
        · exact Or.inr (Or.inr (winnersOf_mem hm).1)
        · exact Or.inr (Or.inl hd)

theorem gdt_spec (rng : Nat → Nat) (types : List Nat)
    (hrng : ∀ n, 0 < n → rng n < n) (hne : types ≠ []) :
    get_dominant_type rng types ∈ types ∧
    types.count (get_dominant_type rng types) = specMaxOcc types := by
  unfold get_dominant_type
  by_cases h0 : types.length = 0
  · exact absurd (List.length_eq_zero.mp h0) hne
  · rw [if_neg h0]
    by_cases h1 : types.length = 1
    · rw [if_pos h1]
      rcases List.length_eq_one.mp h1 with ⟨a, rfl⟩
      refine ⟨by simp, ?_⟩
      have hc : ([a] : List Nat).count a = 1 := by simp
      have hs : specMaxOcc [a] = 1 := by
        unfold specMaxOcc
        simp
      simp [hc, hs]
    · rw [if_neg h1]
      by_cases hw : (winnersOf types).length = 1
      · rw [if_pos hw]
        have hwne : winnersOf types ≠ [] := by
          intro hc
          rw [hc] at hw
          cases hw
        exact winnersOf_mem (headD_mem hwne 0)
      · rw [if_neg hw]
        have hwne : winnersOf types ≠ [] := winnersOf_ne_nil hne
        have hpos : 0 < (winnersOf types).length := List.length_pos.mpr hwne
        have hlt : rng (winnersOf types).length < (winnersOf types).length :=
          hrng _ hpos
        exact winnersOf_mem (getD_mem_of_lt hlt 0)

theorem gdt_no_tie (types : List Nat)
    (h : distinctMaxTypes types ≤ 1) (r1 r2 : Nat → Nat) :
    get_dominant_type r1 types = get_dominant_type r2 types := by
  unfold get_dominant_type
  by_cases h0 : types.length = 0
  · simp [h0]
  · rw [if_neg h0, if_neg h0]
    by_cases h1 : types.length = 1
    · rw [if_pos h1, if_pos h1]
    · rw [if_neg h1, if_neg h1]
      by_cases hw : (winnersOf types).length = 1
      · rw [if_pos hw, if_pos hw]
      · rw [if_neg hw, if_neg hw]
        have hlen : (winnersOf types).length = 0 := by
          rw [winnersOf_length] at hw ⊢
          omega
        have hnil : winnersOf types = [] := List.length_eq_zero.mp hlen
        rw [hnil]
        simp

/-! Helper lemmas about the neighbor scan. -/

theorem isLiveNeighbor_iff (board : List Nat) (w h x y : Nat) (d : Int × Int) :
    isLiveNeighbor board w h x y d = true ↔
      (0 ≤ (x : Int) + d.1 ∧ (x : Int) + d.1 < (w : Int) ∧
       0 ≤ (y : Int) + d.2 ∧ (y : Int) + d.2 < (h : Int)) ∧
      (gridCells board).getD (offsetIndex w x y d) 0 ≠ spaceByte := by
  unfold isLiveNeighbor offsetInBounds
  simp [and_assoc]

theorem neighborScan_some_char (board : List Nat) (w h x y : Nat) :
    ∀ (ds : List (Int × Int)) (c0 : Nat) (ts0 : List Nat) (n : Nat) (ts : List Nat),
    neighborScan (gridGet board) (x : Int) (y : Int) w h ds c0 ts0 = some (n, ts) →
    n = c0 + (ds.filter (isLiveNeighbor board w h x y)).length ∧
    ts = ts0 ++ (ds.filter (isLiveNeighbor board w h x y)).map
      (fun d => (gridCells board).getD (offsetIndex w x y d) 0) := by
  intro ds
  induction ds with
  | nil =>
    intro c0 ts0 n ts hscan
    unfold neighborScan at hscan
    injection hscan with hpair
    injection hpair with h1 h2
    subst h1
    subst h2
    simp
  | cons d ds ih =>
    intro c0 ts0 n ts hscan
    unfold neighborScan at hscan
    by_cases hb : 0 ≤ (x : Int) + d.1 ∧ (x : Int) + d.1 < (w : Int) ∧
        0 ≤ (y : Int) + d.2 ∧ (y : Int) + d.2 < (h : Int)
    · rw [if_pos hb] at hscan
      cases hg : gridGet board (((y : Int) + d.2).toNat * w + ((x : Int) + d.1).toNat) with
      | none => rw [hg] at hscan; cases hscan
      | some cell =>
        rw [hg] at hscan
        have hscan2 : (if cell = spaceByte then
            neighborScan (gridGet board) (x : Int) (y : Int) w h ds c0 ts0
          else neighborScan (gridGet board) (x : Int) (y : Int) w h ds (c0 + 1)
            (ts0 ++ [cell])) = some (n, ts) := hscan
        have hcell : cell = (gridCells board).getD (offsetIndex w x y d) 0 :=
          (gridGet_some_iff.mp hg).2
        by_cases hsp : cell = spaceByte
        · rw [if_pos hsp] at hscan2
          have hlive : ¬ isLiveNeighbor board w h x y d = true := by
            rw [isLiveNeighbor_iff]
            intro hcon
            exact hcon.2 (by rw [← hcell, hsp])
          rw [List.filter_cons_of_neg hlive]
          exact ih c0 ts0 n ts hscan2
        · rw [if_neg hsp] at hscan2
          have hlive : isLiveNeighbor board w h x y d = true := by
            rw [isLiveNeighbor_iff]
            exact ⟨hb, by rw [← hcell]; exact hsp⟩
          rw [List.filter_cons_of_pos hlive]
          rcases ih _ _ _ _ hscan2 with ⟨hn, hts⟩
          constructor
          · rw [hn]
            simp only [List.length_cons]
            omega
          · rw [hts]
            simp only [List.map_cons, List.append_assoc, List.singleton_append]
            rw [← hcell]
    · rw [if_neg hb] at hscan
      have hlive : ¬ isLiveNeighbor board w h x y d = true := by
        rw [isLiveNeighbor_iff]
        intro hcon
        exact hb hcon.1
      rw [List.filter_cons_of_neg hlive]
      exact ih c0 ts0 n ts hscan

theorem neighborScan_isSome (board : List Nat) (w h x y : Nat)
    (hwh : w * h ≤ MAX_BOARD_SIZE) :
    ∀ (ds : List (Int × Int)) (c0 : Nat) (ts0 : List Nat),
    (neighborScan (gridGet board) (x : Int) (y : Int) w h ds c0 ts0).isSome := by
  intro ds
  induction ds with
  | nil =>
    intro c0 ts0
    simp [neighborScan]
  | cons d ds ih =>
    intro c0 ts0
    unfold neighborScan
    by_cases hb : 0 ≤ (x : Int) + d.1 ∧ (x : Int) + d.1 < (w : Int) ∧
        0 ≤ (y : Int) + d.2 ∧ (y : Int) + d.2 < (h : Int)
    · rw [if_pos hb]
      obtain ⟨h1, h2, h3, h4⟩ := hb
      have hxlt : ((x : Int) + d.1).toNat < w := by omega
      have hylt : ((y : Int) + d.2).toNat < h := by omega
      have hidx : ((y : Int) + d.2).toNat * w + ((x : Int) + d.1).toNat < MAX_BOARD_SIZE := by
        have hmul : (((y : Int) + d.2).toNat + 1) * w ≤ h * w :=
          Nat.mul_le_mul_right w hylt
        rw [Nat.succ_mul] at hmul
        have hcomm : h * w = w * h := Nat.mul_comm h w
        omega
      cases hg : gridGet board (((y : Int) + d.2).toNat * w + ((x : Int) + d.1).toNat) with
      | none =>
        have := @gridGet_isSome board _ hidx
        rw [hg] at this
        cases this
      | some cell =>
        show (if cell = spaceByte then
            neighborScan (gridGet board) (x : Int) (y : Int) w h ds c0 ts0
          else neighborScan (gridGet board) (x : Int) (y : Int) w h ds (c0 + 1)
            (ts0 ++ [cell])).isSome = true
        by_cases hsp : cell = spaceByte
        · rw [if_pos hsp]
          exact ih c0 ts0
        · rw [if_neg hsp]
          exact ih (c0 + 1) (ts0 ++ [cell])
    · rw [if_neg hb]
      exact ih c0 ts0

theorem get_neighbor_info_some_char {board : List Nat} {w h x y n : Nat}
    {ts : List Nat}
    (hscan : get_neighbor_info (gridGet board) (x : Int) (y : Int) w h = some (n, ts)) :
    n = specLiveNeighbors board w h x y ∧ ts = specNeighborTypes board w h x y := by
  have := neighborScan_some_char board w h x y neighborOffsets 0 [] n ts hscan
  unfold specLiveNeighbors specNeighborTypes
  rcases this with ⟨h1, h2⟩
  constructor
  · rw [h1]
    simp
  · rw [h2]
    simp

theorem get_neighbor_info_isSome (board : List Nat) (w h x y : Nat)
    (hwh : w * h ≤ MAX_BOARD_SIZE) :
    (get_neighbor_info (gridGet board) (x : Int) (y : Int) w h).isSome :=
  neighborScan_isSome board w h x y hwh neighborOffsets 0 []

theorem specLiveNeighbors_le_eight (board : List Nat) (w h x y : Nat) :
    specLiveNeighbors board w h x y ≤ 8 := by
  unfold specLiveNeighbors
  have := List.length_filter_le (isLiveNeighbor board w h x y) neighborOffsets
  simpa [neighborOffsets] using this

theorem specNeighborTypes_length (board : List Nat) (w h x y : Nat) :
    (specNeighborTypes board w h x y).length = specLiveNeighbors board w h x y := by
  unfold specNeighborTypes specLiveNeighbors
  simp

theorem specNeighborTypes_mem {board : List Nat} {w h x y : Nat} {t : Nat}
    (ht : t ∈ specNeighborTypes board w h x y) :
    t ≠ spaceByte ∧ t ≠ newlineByte := by
  unfold specNeighborTypes at ht
  rcases List.mem_map.mp ht with ⟨d, hd, rfl⟩
  have hlive := (isLiveNeighbor_iff board w h x y d).mp (List.mem_filter.mp hd).2
  exact ⟨hlive.2, gridCells_getD_ne_newline board (offsetIndex w x y d)⟩

/-! Helper lemmas about the per-cell transition and the full step. -/

theorem cellNext_some_char {rng : Nat → Nat} {board : List Nat} {w h x y v : Nat}
    (hc : cellNext rng (gridGet board) w h x y = some v) :
    y * w + x < MAX_BOARD_SIZE ∧
    v = (if cellValue board w x y ≠ spaceByte then
          (if specLiveNeighbors board w h x y = 2 ∨ specLiveNeighbors board w h x y = 3
           then cellValue board w x y else spaceByte)
         else (if specLiveNeighbors board w h x y = 3
           then get_dominant_type rng (specNeighborTypes board w h x y)
           else spaceByte)) := by
  unfold cellNext at hc
  cases hg : gridGet board (y * w + x) with
  | none => rw [hg] at hc; cases hc
  | some cur =>
    rw [hg] at hc
    rcases gridGet_some_iff.mp hg with ⟨hidx, hcur⟩
    refine ⟨hidx, ?_⟩
    cases hni : get_neighbor_info (gridGet board) (x : Int) (y : Int) w h with
    | none => rw [hni] at hc; cases hc
    | some nt =>
      rw [hni] at hc
      obtain ⟨n, ts⟩ := nt
      rcases get_neighbor_info_some_char hni with ⟨hn, hts⟩
      have hc2 : (if (if cur ≠ spaceByte then n = 2 ∨ n = 3 else n = 3) then
          (if cur ≠ spaceByte then some cur else some (get_dominant_type rng ts))
          else some spaceByte) = some v := hc
      subst hn
      subst hts
      subst hcur
      by_cases ha : (gridCells board).getD (y * w + x) 0 ≠ spaceByte
      · simp only [if_pos ha] at hc2
        have hcv : cellValue board w x y ≠ spaceByte := ha
        rw [if_pos hcv]
        by_cases hcnt : specLiveNeighbors board w h x y = 2 ∨
            specLiveNeighbors board w h x y = 3
        · simp only [if_pos hcnt] at hc2
          rw [if_pos hcnt]
          injection hc2 with hv
          exact hv.symm
        · simp only [if_neg hcnt] at hc2
          rw [if_neg hcnt]
          injection hc2 with hv
          exact hv.symm
      · simp only [if_neg ha] at hc2
        have hcv : ¬ cellValue board w x y ≠ spaceByte := ha
        rw [if_neg hcv]
        by_cases hcnt : specLiveNeighbors board w h x y = 3
        · simp only [if_pos hcnt] at hc2
          rw [if_pos hcnt]
          injection hc2 with hv
          exact hv.symm
        · simp only [if_neg hcnt] at hc2
          rw [if_neg hcnt]
          injection hc2 with hv
          exact hv.symm

theorem cellNext_isSome (rng : Nat → Nat) (board : List Nat) {w h x y : Nat}
    (hx : x < w) (hy : y < h) (hwh : w * h ≤ MAX_BOARD_SIZE) :
    (cellNext rng (gridGet board) w h x y).isSome := by
  unfold cellNext
  have hidx : y * w + x < MAX_BOARD_SIZE := by
    have hmul : (y + 1) * w ≤ h * w := Nat.mul_le_mul_right w hy
    rw [Nat.succ_mul] at hmul
    have hcomm : h * w = w * h := Nat.mul_comm h w
    omega
  cases hg : gridGet board (y * w + x) with
  | none =>
    have := @gridGet_isSome board _ hidx
    rw [hg] at this
    cases this
  | some cur =>
    cases hni : get_neighbor_info (gridGet board) (x : Int) (y : Int) w h with
    | none =>
      have := get_neighbor_info_isSome board w h x y hwh
      rw [hni] at this
      cases this
    | some nt =>
      show (if (if cur ≠ spaceByte then nt.1 = 2 ∨ nt.1 = 3 else nt.1 = 3) then
          (if cur ≠ spaceByte then some cur else some (get_dominant_type rng nt.2))
          else some spaceByte).isSome = true
      by_cases h1 : if cur ≠ spaceByte then nt.1 = 2 ∨ nt.1 = 3 else nt.1 = 3
      · rw [if_pos h1]
        by_cases h2 : cur ≠ spaceByte
        · rw [if_pos h2]
          rfl
        · rw [if_neg h2]
          rfl
      · rw [if_neg h1]
        rfl

theorem cellNext_ne_newline {rng : Nat → Nat} {board : List Nat} {w h x y v : Nat}
    (hc : cellNext rng (gridGet board) w h x y = some v) : v ≠ newlineByte := by
  rcases cellNext_some_char hc with ⟨-, hv⟩
  subst hv
  by_cases ha : cellValue board w x y ≠ spaceByte
  · rw [if_pos ha]
    by_cases hcnt : specLiveNeighbors board w h x y = 2 ∨
        specLiveNeighbors board w h x y = 3
    · rw [if_pos hcnt]
      exact gridCells_getD_ne_newline board (y * w + x)
    · rw [if_neg hcnt]
      simp [spaceByte, newlineByte]
  · rw [if_neg ha]
    by_cases hcnt : specLiveNeighbors board w h x y = 3
    · rw [if_pos hcnt]
      rcases gdt_cases rng (specNeighborTypes board w h x y) with hg | hg | hg
      · rw [hg]
        simp [newlineByte]
      · rw [hg]
        simp [newlineByte]
      · exact (specNeighborTypes_mem hg).2
    · rw [if_neg hcnt]
      simp [spaceByte, newlineByte]

theorem range_getD {n i : Nat} (h : i < n) : (List.range n).getD i 0 = i := by
  rw [List.getD_eq_getElem _ _ (by simpa using h)]
  simp

theorem nextGen_some_struct {rng : Nat → Nat} {board out : List Nat} {w h : Nat}
    (h1 : 0 < board.length) (h2 : board.length ≤ MAX_BOARD_SIZE)
    (hd : parseDims board = (w, h)) (hw : 0 < w) (hh : 0 < h)
    (hout : next_generation rng board = some out) :
    ∃ rows, computeRows rng board w h = some rows ∧ out = joinRows rows ∧
      rows.length = h ∧ (∀ r ∈ rows, r.length = w) ∧
      ∀ x y, x < w → y < h →
        cellNext rng (gridGet board) w h x y = some ((rows.getD y []).getD x 0) := by
  have hd1 : (parseDims board).1 = w := by rw [hd]
  have hd2 : (parseDims board).2 = h := by rw [hd]
  unfold next_generation at hout
  rw [if_neg (by omega : ¬ (board.length = 0 ∨ MAX_BOARD_SIZE < board.length))] at hout
  rw [hd1, hd2, if_neg (by omega : ¬ (w = 0 ∨ h = 0))] at hout
  cases hcr : computeRows rng board w h with
  | none => rw [hcr] at hout; cases hout
  | some rows =>
    rw [hcr] at hout
    have houtb : (if MAX_BOARD_SIZE < (joinRows rows).length then none
        else some (joinRows rows)) = some out := hout
    by_cases hlen : MAX_BOARD_SIZE < (joinRows rows).length
    · rw [if_pos hlen] at houtb
      cases houtb
    · rw [if_neg hlen] at houtb
      injection houtb with hout2
      have hcr2 : mapOpt (fun yv => mapOpt
          (fun xv => cellNext rng (gridGet board) w h xv yv) (List.range w))
          (List.range h) = some rows := hcr
      have hrlen : rows.length = h := by
        have := mapOpt_some_length hcr2
        simpa using this
      refine ⟨rows, rfl, hout2.symm, hrlen, ?_, ?_⟩
      · intro r hr
        rcases mapOpt_some_mem hcr2 hr with ⟨yv, hyv, hrow⟩
        have := mapOpt_some_length hrow
        simpa using this
      · intro x y hx hy
        have houter := mapOpt_some_getD hcr2 y (by simpa using hy) 0 []
        rw [range_getD hy] at houter
        have hinner := mapOpt_some_getD houter x (by simpa using hx) 0 0
        rw [range_getD hx] at hinner
        exact hinner

theorem nextGen_isSome (rng : Nat → Nat) (board : List Nat)
    (h1 : 0 < board.length) (h2 : board.length ≤ MAX_BOARD_SIZE)
    (h3 : (parseDims board).1 * (parseDims board).2 +
      ((parseDims board).2 - 1) ≤ MAX_BOARD_SIZE) :
    (next_generation rng board).isSome := by
  unfold next_generation
  rw [if_neg (by omega : ¬ (board.length = 0 ∨ MAX_BOARD_SIZE < board.length))]
  by_cases hz : (parseDims board).1 = 0 ∨ (parseDims board).2 = 0
  · rw [if_pos hz]
    rfl
  · rw [if_neg hz]
    have hw : 0 < (parseDims board).1 := by omega
    have hh : 0 < (parseDims board).2 := by omega
    have hwh : (parseDims board).1 * (parseDims board).2 ≤ MAX_BOARD_SIZE := by omega
    have hcr : (computeRows rng board (parseDims board).1 (parseDims board).2).isSome := by
      unfold computeRows
      apply mapOpt_isSome
      intro yv hyv
      apply mapOpt_isSome
      intro xv hxv
      exact cellNext_isSome rng board (List.mem_range.mp hxv) (List.mem_range.mp hyv) hwh
    cases hcrv : computeRows rng board (parseDims board).1 (parseDims board).2 with
    | none =>
      rw [hcrv] at hcr
      cases hcr
    | some rows =>
      have hcr2 : mapOpt (fun yv => mapOpt
          (fun xv => cellNext rng (gridGet board) (parseDims board).1
            (parseDims board).2 xv yv) (List.range (parseDims board).1))
          (List.range (parseDims board).2) = some rows := hcrv
      have hrlen : rows.length = (parseDims board).2 := by
        have := mapOpt_some_length hcr2
        simpa using this
      have hrw : ∀ r ∈ rows, r.length = (parseDims board).1 := by
        intro r hr
        rcases mapOpt_some_mem hcr2 hr with ⟨yv, hyv, hrow⟩
        have := mapOpt_some_length hrow
        simpa using this
      have hjl : (joinRows rows).length =
          (parseDims board).2 * (parseDims board).1 + ((parseDims board).2 - 1) := by
        rw [joinRows_length hrw, hrlen]
      show (if MAX_BOARD_SIZE < (joinRows rows).length then none
        else some (joinRows rows)).isSome = true
      have hcomm : (parseDims board).2 * (parseDims board).1 =
          (parseDims board).1 * (parseDims board).2 := Nat.mul_comm _ _
      rw [if_neg (by omega : ¬ MAX_BOARD_SIZE < (joinRows rows).length)]
      rfl

/-! Helper lemmas characterising the dimension-parse fold. -/

theorem foldl_parse_cw : ∀ (l : List Nat) (w hgt cw : Nat),
    (l.foldl parseStep (w, hgt, cw)).2.2 = cwAux cw l := by
  intro l
  induction l with
  | nil => intro w hgt cw; rfl
  | cons b t ih =>
    intro w hgt cw
    rw [List.foldl_cons]
    by_cases hb : b = newlineByte
    · subst hb
      have hps : parseStep (w, hgt, cw) newlineByte =
          (if w = 0 then cw else w, hgt + 1, 0) := by simp [parseStep]
      rw [hps, ih]
      simp [cwAux]
    · have hps : parseStep (w, hgt, cw) b = (w, hgt, cw + 1) := by simp [parseStep, hb]
      rw [hps, ih]
      simp [cwAux, hb]

theorem foldl_parse_height : ∀ (l : List Nat) (w hgt cw : Nat),
    (l.foldl parseStep (w, hgt, cw)).2.1 = hgt + l.count newlineByte := by
  intro l
  induction l with
  | nil => intro w hgt cw; simp
  | cons b t ih =>
    intro w hgt cw
    rw [List.foldl_cons]
    by_cases hb : b = newlineByte
    · subst hb
      have hps : parseStep (w, hgt, cw) newlineByte =
          (if w = 0 then cw else w, hgt + 1, 0) := by simp [parseStep]
      rw [hps, ih]
      have : (newlineByte :: t).count newlineByte = t.count newlineByte + 1 := by simp
      rw [this]
      omega
    · have hps : parseStep (w, hgt, cw) b = (w, hgt, cw + 1) := by simp [parseStep, hb]
      rw [hps, ih]
      have : (b :: t).count newlineByte = t.count newlineByte := by
        simp [List.count_cons, hb]
      rw [this]

theorem foldl_parse_width_ne : ∀ (l : List Nat) (w hgt cw : Nat), w ≠ 0 →
    (l.foldl parseStep (w, hgt, cw)).1 = w := by
  intro l
  induction l with
  | nil => intro w hgt cw _; rfl
  | cons b t ih =>
    intro w hgt cw hw
    rw [List.foldl_cons]
    by_cases hb : b = newlineByte
    · subst hb
      have hps : parseStep (w, hgt, cw) newlineByte =
          (if w = 0 then cw else w, hgt + 1, 0) := by simp [parseStep]
      rw [hps, if_neg hw]
      exact ih w (hgt + 1) 0 hw
    · have hps : parseStep (w, hgt, cw) b = (w, hgt, cw + 1) := by simp [parseStep, hb]
      rw [hps]
      exact ih w hgt (cw + 1) hw

theorem foldl_parse_width : ∀ (l : List Nat) (hgt cw : Nat),
    (l.foldl parseStep (0, hgt, cw)).1 = wAux cw l := by
  intro l
  induction l with
  | nil => intro hgt cw; rfl
  | cons b t ih =>
    intro hgt cw
    rw [List.foldl_cons]
    by_cases hb : b = newlineByte
    · subst hb
      have hps : parseStep (0, hgt, cw) newlineByte = (cw, hgt + 1, 0) := by
        simp [parseStep]
      rw [hps]
      by_cases hcw : cw = 0
      · subst hcw
        rw [ih (hgt + 1) 0]
        simp [wAux]
      · rw [foldl_parse_width_ne t cw (hgt + 1) 0 hcw]
        simp [wAux, hcw]
    · have hps : parseStep (0, hgt, cw) b = (0, hgt, cw + 1) := by simp [parseStep, hb]
      rw [hps, ih]
      simp [wAux, hb]

theorem parseDims_eq (board : List Nat) :
    parseDims board =
      if 0 < cwAux 0 board then
        (if wAux 0 board = 0 then cwAux 0 board else wAux 0 board,
         board.count newlineByte + 1)
      else (wAux 0 board, board.count newlineByte) := by
  have hdef : parseDims board =
      if 0 < (board.foldl parseStep (0, 0, 0)).2.2 then
        (if (board.foldl parseStep (0, 0, 0)).1 = 0 then
           (board.foldl parseStep (0, 0, 0)).2.2
         else (board.foldl parseStep (0, 0, 0)).1,
         (board.foldl parseStep (0, 0, 0)).2.1 + 1)
      else ((board.foldl parseStep (0, 0, 0)).1,
        (board.foldl parseStep (0, 0, 0)).2.1) := rfl
  rw [hdef, foldl_parse_cw, foldl_parse_width, foldl_parse_height]
  simp only [Nat.zero_add]

theorem parseDims_fst (board : List Nat) :
    (parseDims board).1 = if 0 < cwAux 0 board ∧ wAux 0 board = 0
      then cwAux 0 board else wAux 0 board := by
  rw [parseDims_eq]
  by_cases hcw : 0 < cwAux 0 board
  · by_cases hw : wAux 0 board = 0
    · simp [hcw, hw]
    · simp [hcw, hw]
  · simp [hcw]

theorem parseDims_snd (board : List Nat) :
    (parseDims board).2 = board.count newlineByte +
      (if 0 < cwAux 0 board then 1 else 0) := by
  rw [parseDims_eq]
  by_cases hcw : 0 < cwAux 0 board
  · simp [hcw]
  · simp [hcw]

theorem postWidth_spec : ∀ (l : List Nat) (cw : Nat),
    (if 0 < cwAux cw l ∧ wAux cw l = 0 then cwAux cw l else wAux cw l) =
      if cw = 0 then amendedWidth l
      else cw + (l.takeWhile (fun c => c != newlineByte)).length := by
  intro l
  induction l with
  | nil =>
    intro cw
    by_cases hcw : cw = 0
    · subst hcw
      simp [cwAux, wAux, amendedWidth]
    · simp [cwAux, wAux, hcw, Nat.pos_of_ne_zero hcw]
  | cons b t ih =>
    intro cw
    by_cases hb : b = newlineByte
    · subst hb
      have hcw2 : cwAux cw (newlineByte :: t) = cwAux 0 t := by simp [cwAux]
      by_cases hcw : cw = 0
      · subst hcw
        have hw2 : wAux 0 (newlineByte :: t) = wAux 0 t := by simp [wAux]
        rw [hcw2, hw2]
        have := ih 0
        rw [if_pos rfl] at this
        rw [this]
        simp [amendedWidth]
      · have hw2 : wAux cw (newlineByte :: t) = cw := by simp [wAux, hcw]
        rw [hcw2, hw2, if_neg (fun hc => hcw hc.2), if_neg hcw]
        simp [List.takeWhile, newlineByte]
    · have hcw2 : cwAux cw (b :: t) = cwAux (cw + 1) t := by simp [cwAux, hb]
      have hw2 : wAux cw (b :: t) = wAux (cw + 1) t := by simp [wAux, hb]
      rw [hcw2, hw2]
      have := ih (cw + 1)
      rw [if_neg (by omega : ¬ cw + 1 = 0)] at this
      rw [this]
      have hbt : (b != newlineByte) = true := by simp [hb]
      have htw : ((b :: t).takeWhile (fun c => c != newlineByte)).length =
          (t.takeWhile (fun c => c != newlineByte)).length + 1 := by
        simp [List.takeWhile, hbt]
      by_cases hcw : cw = 0
      · subst hcw
        rw [if_pos rfl]
        have hamw : amendedWidth (b :: t) =
            ((b :: t).takeWhile (fun c => c != newlineByte)).length := by
          simp [amendedWidth, hb]
        rw [hamw, htw]
        omega
      · rw [if_neg hcw, htw]
        omega

theorem cwAux_pos_iff : ∀ (l : List Nat) (cw : Nat), l ≠ [] →
    (0 < cwAux cw l ↔ hasTrailingRun l = true) := by
  intro l
  induction l with
  | nil => intro cw hc; exact absurd rfl hc
  | cons b t ih =>
    intro cw _
    cases ht : t with
    | nil =>
      by_cases hb : b = newlineByte
      · subst hb
        simp [cwAux, hasTrailingRun, newlineByte]
      · simp [cwAux, hasTrailingRun, hb]
    | cons c t2 =>
      have htne : t ≠ [] := by rw [ht]; exact List.cons_ne_nil c t2
      have htr : hasTrailingRun (b :: t) = hasTrailingRun t := by
        unfold hasTrailingRun
        rw [ht]
        rw [List.getLast?_cons_cons]
      rw [← ht]
      by_cases hb : b = newlineByte
      · subst hb
        have : cwAux cw (newlineByte :: t) = cwAux 0 t := by simp [cwAux]
        rw [this, htr]
        exact ih 0 htne
      · have : cwAux cw (b :: t) = cwAux (cw + 1) t := by simp [cwAux, hb]
        rw [this, htr]
        exact ih (cw + 1) htne

theorem parseDims_width_spec (board : List Nat) :
    (parseDims board).1 = amendedWidth board := by
  rw [parseDims_fst]
  have := postWidth_spec board 0
  rw [if_pos rfl] at this
  exact this

theorem parseDims_height_spec (board : List Nat) (h : board ≠ []) :
    (parseDims board).2 = specHeight board := by
  rw [parseDims_snd]
  unfold specHeight
  by_cases hcw : 0 < cwAux 0 board
  · rw [if_pos hcw, if_pos ((cwAux_pos_iff board 0 h).mp hcw)]
  · rw [if_neg hcw]
    have : ¬ hasTrailingRun board = true := fun hc =>
      hcw ((cwAux_pos_iff board 0 h).mpr hc)
    rw [if_neg this]

/-! Claim theorems. -/

/-- C1: for every accepted board (length in (0, 100000], parsed width and
height positive) for which next_generation produced an output, and every
cell (x, y) of the board, the output cell is alive (non-space) iff either
the grid cell is alive (non-space) with 2 or 3 live in-bounds Moore
neighbors, or it is dead (space) with exactly 3; in every other case the
output cell is the space byte. -/
theorem C1_life_rule (rng : Nat → Nat) (board out : List Nat) (w h x y : Nat)
    (h1 : 0 < board.length) (h2 : board.length ≤ MAX_BOARD_SIZE)
    (hd : parseDims board = (w, h)) (hw : 0 < w) (hh : 0 < h)
    (hx : x < w) (hy : y < h)
    (hout : next_generation rng board = some out) :
    (out.getD (y * (w + 1) + x) 0 ≠ spaceByte ↔
      ((cellValue board w x y ≠ spaceByte ∧
        (specLiveNeighbors board w h x y = 2 ∨ specLiveNeighbors board w h x y = 3)) ∨
       (cellValue board w x y = spaceByte ∧ specLiveNeighbors board w h x y = 3))) ∧
    (¬ ((cellValue board w x y ≠ spaceByte ∧
        (specLiveNeighbors board w h x y = 2 ∨ specLiveNeighbors board w h x y = 3)) ∨
       (cellValue board w x y = spaceByte ∧ specLiveNeighbors board w h x y = 3)) →
      out.getD (y * (w + 1) + x) 0 = spaceByte) := by
  rcases nextGen_some_struct h1 h2 hd hw hh hout with
    ⟨rows, hcr, hout2, hrlen, hrw, hcell⟩
  have hjr : out.getD (y * (w + 1) + x) 0 = (rows.getD y []).getD x 0 := by
    rw [hout2]
    exact joinRows_getD hrw (by omega) hx
  rcases cellNext_some_char (hcell x y hx hy) with ⟨-, hv⟩
  rw [hjr, hv]
  by_cases ha : cellValue board w x y ≠ spaceByte
  · rw [if_pos ha]
    by_cases hcnt : specLiveNeighbors board w h x y = 2 ∨
        specLiveNeighbors board w h x y = 3
    · rw [if_pos hcnt]
      exact ⟨iff_of_true ha (Or.inl ⟨ha, hcnt⟩),
        fun hc => absurd (Or.inl ⟨ha, hcnt⟩) hc⟩
    · rw [if_neg hcnt]
      constructor
      · apply iff_of_false
        · simp
        · rintro (⟨h3, h4⟩ | ⟨h3, h4⟩)
          · exact hcnt h4
          · exact ha h3
      · intro _
        rfl
  · rw [if_neg ha]
    have hce : cellValue board w x y = spaceByte := not_not.mp ha
    by_cases hcnt : specLiveNeighbors board w h x y = 3
    · rw [if_pos hcnt]
      constructor
      · apply iff_of_true
        · rcases gdt_cases rng (specNeighborTypes board w h x y) with hg | hg | hg
          · rw [hg]
            simp [spaceByte]
          · rw [hg]
            simp [spaceByte]
          · exact (specNeighborTypes_mem hg).1
        · exact Or.inr ⟨hce, hcnt⟩
      · intro hc
        exact absurd (Or.inr ⟨hce, hcnt⟩) hc
    · rw [if_neg hcnt]
      constructor
      · apply iff_of_false
        · simp
        · rintro (⟨h3, h4⟩ | ⟨h3, h4⟩)
          · exact ha h3
          · exact hcnt h4
      · intro _
        rfl

/-- Witness for C1 at the all-live 3x3 board of the overcrowding test: the
center cell is alive with 8 live neighbors, fails the rule, and the output
cell is the space byte. -/
theorem C1_life_rule_witness : out9.getD (1 * (3 + 1) + 1) 0 = spaceByte :=
  (C1_life_rule rng0 board9 out9 3 3 1 1 (by decide) (by decide) (by decide)
    (by decide) (by decide) (by decide) (by decide) (by decide)).2 (by decide)

set_option maxRecDepth 100000 in
set_option maxHeartbeats 2000000 in
/-- C2 counterexample: the 634-byte input of 317 live bytes followed by 317
newlines is accepted (length in (0, 100000]) but parses to 317 x 317, whose
flat-grid extent 100489 exceeds the 100000-byte buffer, and evaluating
next_generation reaches an out-of-buffer grid read, i.e. a Rust index
panic (modelled as none) rather than the panic-free pass-through the claim
asserts. -/
theorem C2_counterexample :
    0 < bigBoard.length ∧ bigBoard.length ≤ MAX_BOARD_SIZE ∧
    MAX_BOARD_SIZE < (parseDims bigBoard).1 * (parseDims bigBoard).2 ∧
    next_generation rng0 bigBoard = none := by
  have hdim : parseDims bigBoard = (317, 317) := by decide
  have hnone : computeRows rng0 bigBoard 317 317 = none := by
    unfold computeRows
    refine mapOpt_eq_none_of_mem (List.mem_range.mpr (by decide : (315 : Nat) < 317)) ?_
    show mapOpt (fun xv => cellNext rng0 (gridGet bigBoard) 317 317 xv 315)
      (List.range 317) = none
    refine mapOpt_eq_none_of_mem (List.mem_range.mpr (by decide : (145 : Nat) < 317)) ?_
    show cellNext rng0 (gridGet bigBoard) 317 317 145 315 = none
    decide
  have hdim1 : (parseDims bigBoard).1 = 317 := by rw [hdim]
  have hdim2 : (parseDims bigBoard).2 = 317 := by rw [hdim]
  refine ⟨by decide, by decide, ?_, ?_⟩
  · rw [hdim1, hdim2]
    decide
  · unfold next_generation
    rw [if_neg (by decide :
      ¬ (bigBoard.length = 0 ∨ MAX_BOARD_SIZE < bigBoard.length)), hdim1, hdim2]
    rw [if_neg (by decide : ¬ ((317 : Nat) = 0 ∨ (317 : Nat) = 0))]
    rw [hnone]

/-- C2 (amended): for every input of length in (0, 100000] whose parsed
dimensions additionally satisfy width * height + (height - 1) <= 100000
(i.e. the flat grid and the serialized output both fit the fixed buffer),
every grid access is inside the buffer and next_generation returns a result
without panicking; without that extra bound the flat-cell range can exceed
the buffer and evaluation panics, as C2_counterexample shows. -/
theorem C2_no_panic (rng : Nat → Nat) (board : List Nat)
    (h1 : 0 < board.length) (h2 : board.length ≤ MAX_BOARD_SIZE)
    (h3 : (parseDims board).1 * (parseDims board).2 +
      ((parseDims board).2 - 1) ≤ MAX_BOARD_SIZE) :
    (∀ i, i < (parseDims board).1 * (parseDims board).2 → gridGet board i ≠ none) ∧
    ∃ out, next_generation rng board = some out := by
  constructor
  · intro i hi
    have hlt : i < MAX_BOARD_SIZE := by omega
    simp [gridGet, hlt]
  · exact Option.isSome_iff_exists.mp (nextGen_isSome rng board h1 h2 h3)

/-- Witness for C2 (amended) at the 2x2 block board OO / OO. -/
theorem C2_no_panic_witness :
    ∃ out, next_generation rng0 [79, 79, newlineByte, 79, 79] = some out :=
  (C2_no_panic rng0 [79, 79, newlineByte, 79, 79] (by decide) (by decide)
    (by decide)).2

/-- C3 counterexample: the 3-byte input of a newline followed by AB has an
empty run of non-newline bytes before its first newline, so the claim says
width 0, but the parser takes the width from the first nonempty row and
returns 2. -/
theorem C3_counterexample :
    0 < cexBoard.length ∧ cexBoard.length ≤ MAX_BOARD_SIZE ∧
    specFirstRowWidth cexBoard = 0 ∧ (parseDims cexBoard).1 = 2 ∧
    ¬ parseDims cexBoard = (specFirstRowWidth cexBoard, specHeight cexBoard) := by
  decide

/-- C3 (amended): for every input of length in (0, 100000], the parsed width
equals the length of the first maximal nonempty run of non-newline bytes
(the first nonempty newline-delimited row, a trailing row included; 0 when
every byte is a newline) — not the possibly empty run before the first
newline — and the parsed height equals the number of newlines plus one more
when trailing non-newline bytes exist after the last newline. -/
theorem C3_parse_dims (board : List Nat)
    (h1 : 0 < board.length) (h2 : board.length ≤ MAX_BOARD_SIZE) :
    parseDims board = (amendedWidth board, specHeight board) := by
  have hne : board ≠ [] := by
    intro hc
    rw [hc] at h1
    cases h1
  exact Prod.ext (parseDims_width_spec board) (parseDims_height_spec board hne)

/-- Witness for C3 (amended) at the board cexBoard. -/
theorem C3_parse_dims_witness :
    parseDims cexBoard = (amendedWidth cexBoard, specHeight cexBoard) :=
  C3_parse_dims cexBoard (by decide) (by decide)

/-- C4 counterexample: the 5x3 all-space board is not degenerate (positive
length within the bound, width 5 and height 3), yet next_generation returns
it unchanged, so the input being degenerate is not necessary for the input
to be returned unchanged. -/
theorem C4_counterexample :
    ¬ (allSpaceBoard.length = 0 ∨ MAX_BOARD_SIZE < allSpaceBoard.length ∨
       (parseDims allSpaceBoard).1 = 0 ∨ (parseDims allSpaceBoard).2 = 0) ∧
    next_generation rng0 allSpaceBoard = some allSpaceBoard := by
  decide

/-- C4 (amended): whenever the input is degenerate — length 0, length
greater than 100000 bytes, or a parse yielding zero width or zero height —
next_generation returns its input unchanged and signals no error (the
converse fails: a fixed point of the transition, such as an all-dead board,
is also returned unchanged). -/
theorem C4_passthrough (rng : Nat → Nat) (board : List Nat)
    (hdeg : board.length = 0 ∨ MAX_BOARD_SIZE < board.length ∨
      (parseDims board).1 = 0 ∨ (parseDims board).2 = 0) :
    next_generation rng board = some board := by
  unfold next_generation
  by_cases hlen : board.length = 0 ∨ MAX_BOARD_SIZE < board.length
  · rw [if_pos hlen]
  · rw [if_neg hlen]
    have hz : (parseDims board).1 = 0 ∨ (parseDims board).2 = 0 := by tauto
    rw [if_pos hz]

/-- Witness for C4 (amended) at the single-newline input, which parses to
width 0. -/
theorem C4_passthrough_witness :
    next_generation rng0 [newlineByte] = some [newlineByte] :=
  C4_passthrough rng0 [newlineByte] (by decide)

/-- C5: for every neighbor-type list and every random source whose draw at
each positive bound stays below that bound, get_dominant_type returns the
fixed fallback byte 79 on the empty list, and otherwise a byte that occurs
in the list and whose occurrence count achieves the maximum — one of the
winners, never an unlisted type, whichever index the tie-break draws. -/
theorem C5_dominant_membership (types : List Nat) (rng : Nat → Nat)
    (hrng : ∀ n, 0 < n → rng n < n) :
    (types = [] → get_dominant_type rng types = 79) ∧
    (types ≠ [] → get_dominant_type rng types ∈ types ∧
      types.count (get_dominant_type rng types) = specMaxOcc types) := by
  constructor
  · intro hnil
    subst hnil
    rfl
  · intro hne
    exact gdt_spec rng types hrng hne

/-- Witness for C5 at the list [88, 79, 88]: the result is a member with
maximal occurrence count. -/
theorem C5_dominant_membership_witness :
    get_dominant_type rng0 [88, 79, 88] ∈ [88, 79, 88] ∧
    ([88, 79, 88] : List Nat).count (get_dominant_type rng0 [88, 79, 88]) =
      specMaxOcc [88, 79, 88] :=
  (C5_dominant_membership [88, 79, 88] rng0 (fun _ hn => hn)).2 (by decide)

/-- C6: for every accepted board whose step produced an output, a cell that
is alive in the grid and alive in the output (a survivor) emits exactly its
original type byte, whatever its neighbors' types; and in particular the
mixed-type block board maps to itself, for every random source. -/
theorem C6_survivor_sticky (rng : Nat → Nat) (board out : List Nat)
    (w h x y : Nat)
    (h1 : 0 < board.length) (h2 : board.length ≤ MAX_BOARD_SIZE)
    (hd : parseDims board = (w, h)) (hw : 0 < w) (hh : 0 < h)
    (hx : x < w) (hy : y < h)
    (hout : next_generation rng board = some out)
    (halive : cellValue board w x y ≠ spaceByte)
    (hsurv : out.getD (y * (w + 1) + x) 0 ≠ spaceByte) :
    out.getD (y * (w + 1) + x) 0 = cellValue board w x y ∧
    next_generation rng mixedBoard = some mixedBoard := by
  refine ⟨?_, by rfl⟩
  rcases nextGen_some_struct h1 h2 hd hw hh hout with
    ⟨rows, hcr, hout2, hrlen, hrw, hcell⟩
  have hjr : out.getD (y * (w + 1) + x) 0 = (rows.getD y []).getD x 0 := by
    rw [hout2]
    exact joinRows_getD hrw (by omega) hx
  rcases cellNext_some_char (hcell x y hx hy) with ⟨-, hv⟩
  rw [hjr, hv] at hsurv ⊢
  rw [if_pos halive] at hsurv ⊢
  by_cases hcnt : specLiveNeighbors board w h x y = 2 ∨
      specLiveNeighbors board w h x y = 3
  · rw [if_pos hcnt]
  · rw [if_neg hcnt] at hsurv
    exact absurd rfl hsurv

/-- Witness for C6 at the mixed-type block board: cell (1, 1) of type X
survives unchanged, and the whole board maps to itself. -/
theorem C6_survivor_sticky_witness :
    mixedBoard.getD (1 * (4 + 1) + 1) 0 = cellValue mixedBoard 4 1 1 ∧
    next_generation rng0 mixedBoard = some mixedBoard :=
  C6_survivor_sticky rng0 mixedBoard mixedBoard 4 4 1 1 (by decide) (by decide)
    (by decide) (by decide) (by decide) (by decide) (by decide) (by decide)
    (by decide) (by decide)

/-- C7: whenever get_neighbor_info on the grid of a board returns, its count
is the number of live in-bounds Moore neighbors of (x, y) — between 0 and 8,
with no wraparound — and its list holds exactly those neighbors' byte
values in the fixed scan order (dy ascending outer, dx ascending inner),
the list length equalling the count. -/
theorem C7_neighbor_info (board : List Nat) (w h x y n : Nat) (ts : List Nat)
    (hs : get_neighbor_info (gridGet board) (x : Int) (y : Int) w h = some (n, ts)) :
    n = specLiveNeighbors board w h x y ∧ ts = specNeighborTypes board w h x y ∧
    n ≤ 8 ∧ ts.length = n := by
  rcases get_neighbor_info_some_char hs with ⟨hn, hts⟩
  refine ⟨hn, hts, ?_, ?_⟩
  · rw [hn]
    exact specLiveNeighbors_le_eight board w h x y
  · rw [hn, hts]
    exact specNeighborTypes_length board w h x y

/-- Witness for C7 at the center of the all-live 3x3 board: 8 live
neighbors, all of type O. -/
theorem C7_neighbor_info_witness :
    8 = specLiveNeighbors board9 3 3 1 1 ∧
    [79, 79, 79, 79, 79, 79, 79, 79] = specNeighborTypes board9 3 3 1 1 ∧
    8 ≤ 8 ∧ ([79, 79, 79, 79, 79, 79, 79, 79] : List Nat).length = 8 :=
  C7_neighbor_info board9 3 3 1 1 8 [79, 79, 79, 79, 79, 79, 79, 79] (by decide)

/-- C8: for every accepted board whose step produced an output, the output
is exactly height rows of exactly width bytes each (no cell is a newline
byte), joined by a single newline between consecutive rows with none before
the first and none after the last, so its length is
height * width + (height - 1) and its dimensions equal the parsed input
dimensions. -/
theorem C8_output_shape (rng : Nat → Nat) (board out : List Nat) (w h : Nat)
    (h1 : 0 < board.length) (h2 : board.length ≤ MAX_BOARD_SIZE)
    (hd : parseDims board = (w, h)) (hw : 0 < w) (hh : 0 < h)
    (hout : next_generation rng board = some out) :
    ∃ rows, rows.length = h ∧
      (∀ r ∈ rows, r.length = w ∧ ∀ c ∈ r, c ≠ newlineByte) ∧
      out = joinRows rows ∧ out.length = h * w + (h - 1) := by
  rcases nextGen_some_struct h1 h2 hd hw hh hout with
    ⟨rows, hcr, hout2, hrlen, hrw, hcell⟩
  refine ⟨rows, hrlen, ?_, hout2, ?_⟩
  · intro r hr
    refine ⟨hrw r hr, ?_⟩
    intro c hc
    have hcr2 : mapOpt (fun yv => mapOpt
        (fun xv => cellNext rng (gridGet board) w h xv yv) (List.range w))
        (List.range h) = some rows := hcr
    rcases mapOpt_some_mem hcr2 hr with ⟨yv, hyv, hrow⟩
    rcases mapOpt_some_mem hrow hc with ⟨xv, hxv, hcellv⟩
    exact cellNext_ne_newline hcellv
  · rw [hout2, joinRows_length hrw, hrlen]

/-- Witness for C8 at the all-live 3x3 board: the output splits into 3 rows
of 3 newline-free bytes with total length 11. -/
theorem C8_output_shape_witness :
    ∃ rows, rows.length = 3 ∧
      (∀ r ∈ rows, r.length = 3 ∧ ∀ c ∈ r, c ≠ newlineByte) ∧
      out9 = joinRows rows ∧ out9.length = 3 * 3 + (3 - 1) :=
  C8_output_shape rng0 board9 out9 3 3 (by decide) (by decide) (by decide)
    (by decide) (by decide) (by decide)

/-- C9: next_generation is deterministic except for the birth-type
tie-break: two runs with arbitrary, possibly different, random sources
produce identical output whenever no dead cell with exactly 3 live
neighbors has two or more neighbor types tied for the maximum occurrence
count (in particular on any single-type board). -/
theorem C9_deterministic_no_tie (r1 r2 : Nat → Nat) (board : List Nat)
    (hnt : noBirthTie board (parseDims board).1 (parseDims board).2) :
    next_generation r1 board = next_generation r2 board := by
  unfold next_generation
  by_cases hlen : board.length = 0 ∨ MAX_BOARD_SIZE < board.length
  · rw [if_pos hlen, if_pos hlen]
  · rw [if_neg hlen, if_neg hlen]
    by_cases hz : (parseDims board).1 = 0 ∨ (parseDims board).2 = 0
    · rw [if_pos hz, if_pos hz]
    · rw [if_neg hz, if_neg hz]
      have hcr : computeRows r1 board (parseDims board).1 (parseDims board).2 =
          computeRows r2 board (parseDims board).1 (parseDims board).2 := by
        unfold computeRows
        apply mapOpt_congr
        intro yv hyv
        apply mapOpt_congr
        intro xv hxv
        have hx := List.mem_range.mp hxv
        have hy := List.mem_range.mp hyv
        unfold cellNext
        cases hg : gridGet board (yv * (parseDims board).1 + xv) with
        | none => rfl
        | some cur =>
          cases hni : get_neighbor_info (gridGet board) (xv : Int) (yv : Int)
              (parseDims board).1 (parseDims board).2 with
          | none => rfl
          | some nt =>
            obtain ⟨n, ts⟩ := nt
            rcases get_neighbor_info_some_char hni with ⟨hn, hts⟩
            show (if (if cur ≠ spaceByte then n = 2 ∨ n = 3 else n = 3) then
                (if cur ≠ spaceByte then some cur
                 else some (get_dominant_type r1 ts))
                else some spaceByte) =
              (if (if cur ≠ spaceByte then n = 2 ∨ n = 3 else n = 3) then
                (if cur ≠ spaceByte then some cur
                 else some (get_dominant_type r2 ts))
                else some spaceByte)
            by_cases hna : if cur ≠ spaceByte then n = 2 ∨ n = 3 else n = 3
            · rw [if_pos hna, if_pos hna]
              by_cases ha : cur ≠ spaceByte
              · rw [if_pos ha, if_pos ha]
              · rw [if_neg ha, if_neg ha]
                have hcur : cur = spaceByte := not_not.mp ha
                have hn3 : n = 3 := by
                  simp only [if_neg ha] at hna
                  exact hna
                have hcv : cellValue board (parseDims board).1 xv yv = spaceByte := by
                  unfold cellValue
                  rw [← (gridGet_some_iff.mp hg).2]
                  exact hcur
                have hcnt : specLiveNeighbors board (parseDims board).1
                    (parseDims board).2 xv yv = 3 := by
                  rw [← hn]
                  exact hn3
                have htie := hnt xv hx yv hy hcv hcnt
                rw [← hts] at htie
                exact congrArg some (gdt_no_tie ts htie r1 r2)
            · rw [if_neg hna, if_neg hna]
      rw [hcr]

/-- Witness for C9 at the single-type 5x5 blinker board with two different
random sources. -/
theorem C9_deterministic_no_tie_witness :
    next_generation rng0 blinkerBoard = next_generation rng1 blinkerBoard :=
  C9_deterministic_no_tie rng0 rng1 blinkerBoard (by unfold noBirthTie; decide)

/-- C10: the grid buffer is zero beyond the written non-newline bytes, so
when an accepted board has fewer non-newline bytes than width * height the
unfilled trailing cells read as byte 0, which is not the space byte and is
therefore treated as a live cell of type 0 (NUL): on the board AB / A
(width 3, parsed 3 x 2) the zero cells (1, 1) and (2, 1) are counted as
live neighbors (cell (0, 0) counts 3), the dead cell (2, 0) is born with
inherited type 0, and the zero cell (2, 1) survives into the output as a
NUL byte. -/
theorem C10_nul_padding :
    (∀ board i, (gridCells board).length ≤ i → i < MAX_BOARD_SIZE →
      gridGet board i = some 0) ∧
    (0 : Nat) ≠ spaceByte ∧
    (gridCells demoBoard).length = 4 ∧
    parseDims demoBoard = (3, 2) ∧
    cellValue demoBoard 3 1 1 = 0 ∧ cellValue demoBoard 3 2 1 = 0 ∧
    specLiveNeighbors demoBoard 3 2 0 0 = 3 ∧
    next_generation rng0 demoBoard = some demoOut ∧
    demoOut.getD 2 0 = 0 ∧ demoOut.getD 6 0 = 0 := by
  refine ⟨?_, by decide, by decide, by decide, by decide, by decide,
    by decide, by decide, by decide, by decide⟩
  intro board i hlen hmax
  rw [gridGet, if_pos hmax, gridCells_getD_pad board i hlen]

/-- Witness for C10: reading the grid of the board AB / A at flat index 5,
beyond its 4 written bytes, yields byte 0. -/
theorem C10_nul_padding_witness : gridGet demoBoard 5 = some 0 :=
  C10_nul_padding.1 demoBoard 5 (by decide) (by decide)
